import Mathlib

/-!
Shallow embedding of the cyber-elephant gift-exchange game server.

The rules engine is translated from `src/game-core/src/lib.rs`; the admin
operations `start_game` and `submit_gift` are translated from
`src/backend/src/lib.rs`.  Rust's in-place mutation of `Game` is modelled by
threading the state explicitly: each operation returns the post-state
together with its result.  Machine integers that the code keeps small by
explicit checks (`stolen_count : u8`, bounded by the `>= 3` guard;
`current_turn : usize`, bounded by `turn_order.len()`) are modelled as `Nat`.
UUID generation and the PRNG are external collaborators (spec §1) and are
modelled as explicit parameters.
-/

namespace CyberElephant

/-- Player record, from `game-core/src/lib.rs` (`joined_at: u64` as `Nat`). -/
structure Player where
  id : String
  name : String
  joined_at : Nat
deriving DecidableEq, Repr

/-- Gift state, from `game-core/src/lib.rs`. -/
inductive GiftState where
  | unopened
  | opened
deriving DecidableEq, Repr

/-- Gift record, from `game-core/src/lib.rs` (`stolen_count: u8` as `Nat`;
the engine's `>= 3` guard keeps it at most 3, so no wrap can occur). -/
structure Gift where
  id : String
  submitted_by : String
  product_url : String
  hint : String
  image_url : Option String
  title : Option String
  opened_by : Option String
  held_by : Option String
  stolen_count : Nat
  state : GiftState
deriving DecidableEq, Repr

/-- Game phase, from `game-core/src/lib.rs`. -/
inductive GamePhase where
  | lobby
  | submissions
  | inProgress
  | finished
deriving DecidableEq, Repr

/-- Player action, from `game-core/src/lib.rs`. -/
inductive PlayerAction where
  | chooseGift (player_id : String) (gift_id : String)
  | stealGift (player_id : String) (gift_id : String)
deriving DecidableEq, Repr

/-- Game event, from `game-core/src/lib.rs` (`from`/`to` renamed `from_`/`to_`
because they are reserved words in Lean). -/
inductive GameEvent where
  | giftOpened (player_id : String) (gift_id : String)
  | giftStolen (from_ : String) (to_ : String) (gift_id : String)
  | turnChanged (player_id : String)
  | gameFinished
deriving DecidableEq, Repr

/-- Game state, from `game-core/src/lib.rs` (`current_turn: usize` as `Nat`). -/
structure Game where
  id : String
  phase : GamePhase
  players : List Player
  gifts : List Gift
  turn_order : List String
  current_turn : Nat
  active_player : Option String
  history : List GameEvent
deriving DecidableEq, Repr

/-- Error type of the rules engine, from `game-core/src/lib.rs`. -/
inductive GameError where
  | WrongPhase
  | NotPlayersTurn
  | GiftNotFound
  | PlayerNotFound
  | GiftAlreadyOpened
  | GiftUnopened
  | CannotStealOwnGift
  | StealLimitReached
  | StealBackNotAllowed
  | InvalidAction
deriving DecidableEq, Repr

/-- The actor of an action, as extracted at the top of `apply_action`. -/
def PlayerAction.actor : PlayerAction → String
  | .chooseGift pid _ => pid
  | .stealGift pid _ => pid

/-- Replace the first element satisfying `p` by its image under `f`; this is
how `iter_mut().find(..)` / `position(..)` followed by an in-place mutation
acts on the `gifts` vector. -/
def updateFirst (p : α → Bool) (f : α → α) : List α → List α
  | [] => []
  | a :: rest => if p a then f a :: rest else a :: updateFirst p f rest

/-- Function `advance_turn` from `game-core/src/lib.rs`: increment `current_turn`; if
still in range, activate that player and emit `turn_changed`, otherwise clear
`active_player` (leaving `current_turn` where it was). -/
def advance_turn (game : Game) (events : List GameEvent) : Game × List GameEvent :=
  let next_index := game.current_turn + 1
  if h : next_index < game.turn_order.length then
    let next_player := game.turn_order.get ⟨next_index, h⟩
    ({ game with current_turn := next_index, active_player := some next_player },
      events ++ [.turnChanged next_player])
  else
    ({ game with active_player := none }, events)

/-- Function `immediate_steal_back` from `game-core/src/lib.rs`: the most recent event
in `history` is a steal whose victim is `actor` and whose thief is `target`. -/
def immediate_steal_back (game : Game) (actor target : String) : Bool :=
  match game.history.getLast? with
  | some (.giftStolen f t _) => f == actor && t == target
  | _ => false

/-- The gift update applied by a successful `choose_gift`. -/
def openFor (pid : String) (x : Gift) : Gift :=
  { x with state := .opened, opened_by := some pid, held_by := some pid }

/-- The gift update applied by a successful `steal_gift`. -/
def stealFor (pid : String) (x : Gift) : Gift :=
  { x with stolen_count := x.stolen_count + 1, held_by := some pid }

/-- Function `choose_gift` from `game-core/src/lib.rs`.  The `Option GameError`
component is `none` on success; on an error the state and event list are
returned untouched, exactly as the Rust early returns leave them. -/
def choose_gift (game : Game) (player_id gift_id : String) (events : List GameEvent) :
    Game × List GameEvent × Option GameError :=
  match game.gifts.find? (fun g => g.id == gift_id) with
  | none => (game, events, some .GiftNotFound)
  | some g =>
    if g.state = GiftState.unopened then
      let game' := { game with
        gifts := updateFirst (fun x => x.id == gift_id) (openFor player_id) game.gifts }
      let res := advance_turn game' (events ++ [.giftOpened player_id gift_id])
      (res.1, res.2, none)
    else
      (game, events, some .GiftAlreadyOpened)

/-- Function `steal_gift` from `game-core/src/lib.rs`.  Note the check order of the
source: the gift is located (`GiftNotFound`), then the holder is extracted
with `ok_or(InvalidAction)?`, and only then are the `state`, own-gift,
steal-limit and steal-back checks run. -/
def steal_gift (game : Game) (player_id gift_id : String) (events : List GameEvent) :
    Game × List GameEvent × Option GameError :=
  match game.gifts.find? (fun g => g.id == gift_id) with
  | none => (game, events, some .GiftNotFound)
  | some g =>
    match g.held_by with
    | none => (game, events, some .InvalidAction)
    | some current_holder =>
      if g.state ≠ GiftState.opened then
        (game, events, some .GiftUnopened)
      else if current_holder = player_id then
        (game, events, some .CannotStealOwnGift)
      else if 3 ≤ g.stolen_count then
        (game, events, some .StealLimitReached)
      else if immediate_steal_back game player_id current_holder then
        (game, events, some .StealBackNotAllowed)
      else
        let game' := { game with
          gifts := updateFirst (fun x => x.id == gift_id) (stealFor player_id) game.gifts,
          active_player := some current_holder }
        (game', events ++ [.giftStolen current_holder player_id gift_id,
          .turnChanged current_holder], none)

/-- Function `all_gifts_opened` from `game-core/src/lib.rs`. -/
def all_gifts_opened (gifts : List Gift) : Bool :=
  gifts.all (fun g => g.state == GiftState.opened)

/-- Number of gifts currently held by `pid`; this is the count the Rust code
accumulates in its `holder_counts` hash map. -/
def heldCount (gifts : List Gift) (pid : String) : Nat :=
  gifts.countP (fun g => g.held_by == some pid)

/-- Function `all_players_holding_one` from `game-core/src/lib.rs`: every player id
occurs exactly once as some gift's `held_by`. -/
def all_players_holding_one (players : List Player) (gifts : List Gift) : Bool :=
  players.all (fun p => heldCount gifts p.id == 1)

/-- Function `apply_action` from `game-core/src/lib.rs`: phase and turn checks, the
per-action branch, the completion check, and the append to `history`.  The
returned `Game` is the post-call state of the Rust `&mut Game` argument. -/
def apply_action (game : Game) (action : PlayerAction) :
    Game × Except GameError (List GameEvent) :=
  if game.phase ≠ GamePhase.inProgress then
    (game, .error .WrongPhase)
  else
    match game.active_player with
    | none => (game, .error .InvalidAction)
    | some active_player =>
      if active_player ≠ action.actor then
        (game, .error .NotPlayersTurn)
      else
        let step :=
          match action with
          | .chooseGift pid gid => choose_gift game pid gid []
          | .stealGift pid gid => steal_gift game pid gid []
        match step with
        | (g, _, some err) => (g, .error err)
        | (g, events, none) =>
          let done :=
            if all_gifts_opened g.gifts && all_players_holding_one g.players g.gifts then
              ({ g with phase := GamePhase.finished }, events ++ [GameEvent.gameFinished])
            else
              (g, events)
          ({ done.1 with history := done.1.history ++ done.2 }, .ok done.2)

/-- Run a list of actions, requiring every one of them to succeed;
`none` when some action fails. -/
def applyAll (game : Game) : List PlayerAction → Option Game
  | [] => some game
  | a :: rest =>
    match apply_action game a with
    | (g', Except.ok _) => applyAll g' rest
    | (_, Except.error _) => none

instance {ε α : Type _} [DecidableEq ε] [DecidableEq α] : DecidableEq (Except ε α) :=
  fun x y =>
    match x, y with
    | .ok a, .ok b =>
      if h : a = b then .isTrue (by rw [h])
      else .isFalse (by intro hc; cases hc; exact h rfl)
    | .ok _, .error _ => .isFalse (by intro hc; cases hc)
    | .error _, .ok _ => .isFalse (by intro hc; cases hc)
    | .error e, .error f =>
      if h : e = f then .isTrue (by rw [h])
      else .isFalse (by intro hc; cases hc; exact h rfl)

/-! ## Backend admin operations, from `src/backend/src/lib.rs`

`GameRecord` is the backend's stored game (a `Game` plus the `host_token`).
`PlayerRecord` and `GiftRecord` have exactly the fields of the core `Player`
and `Gift`, so those types are reused.  UUIDs and OS entropy are external
collaborators: fresh ids and the random stream driving the shuffle are
parameters. -/

/-- Stored game record, from `backend/src/lib.rs`. -/
structure GameRecord where
  id : String
  host_token : String
  players : List Player
  gifts : List Gift
  phase : GamePhase
  turn_order : List String
  current_turn : Nat
  active_player : Option String
  history : List GameEvent
deriving DecidableEq, Repr

/-- The error responses of the `start_game` handler, in the order the checks
occur in `backend/src/lib.rs` (after the game lookup). -/
inductive StartError where
  | unauthorized
  | wrongPhase
  | noPlayers
  | missingGifts
deriving DecidableEq, Repr

/-- The error responses of the `submit_gift` handler, in the order the checks
occur in `backend/src/lib.rs` (after the game lookup). -/
inductive SubmitError where
  | submissionsClosed
  | badRequest
  | playerNotFound
deriving DecidableEq, Repr

/-- Swap the entries at positions `i` and `j`, as `slice::swap` does; both
indices are in range at every call site below. -/
def listSwap (l : List α) (i j : Nat) : List α :=
  match l.get? i, l.get? j with
  | some a, some b => (l.set i b).set j a
  | _, _ => l

/-- The Fisher–Yates loop of `rand`'s `SliceRandom::shuffle`: for `i` from
`len - 1` down to `1`, swap position `i` with a random position `≤ i`.  The
PRNG (`ChaCha8Rng`, an external collaborator) is abstracted as the stream
`rand`; `rand i % (i + 1)` stands for `gen_range(0..=i)`. -/
def fisherYatesAux (rand : Nat → Nat) (l : List α) : Nat → List α
  | 0 => l
  | i + 1 => fisherYatesAux rand (listSwap l (i + 1) (rand (i + 1) % (i + 2))) i

/-- The call `turn_order.shuffle(&mut rng)` from `start_game`. -/
def shuffle (l : List α) (rand : Nat → Nat) : List α :=
  match l.length with
  | 0 => l
  | n + 1 => fisherYatesAux rand l n

/-- The per-gift reset loop of `start_game`. -/
def resetGift (g : Gift) : Gift :=
  { g with state := .unopened, opened_by := none, held_by := none, stolen_count := 0 }

/-- Handler `start_game` from `backend/src/lib.rs`, after the game lookup:
host-token check, phase check, player and gift preconditions, then shuffle
and reset.  `header_token` is the `x-host-token` header. -/
def start_game (game : GameRecord) (header_token : Option String) (rand : Nat → Nat) :
    Except StartError GameRecord :=
  match header_token with
  | none => .error .unauthorized
  | some tok =>
    if tok ≠ game.host_token then .error .unauthorized
    else if game.phase ≠ GamePhase.submissions then .error .wrongPhase
    else if game.players.isEmpty then .error .noPlayers
    else if ¬ game.players.all (fun p => game.gifts.any (fun g => g.submitted_by == p.id)) then
      .error .missingGifts
    else
      let turn_order := shuffle (game.players.map Player.id) rand
      .ok { game with
        phase := GamePhase.inProgress,
        turn_order := turn_order,
        current_turn := 0,
        active_player := turn_order.head?,
        history := [],
        gifts := game.gifts.map resetGift }

/-- Rust's `char::is_whitespace`: the Unicode `White_Space` property, i.e.
U+0009..U+000D, U+0020, U+0085, U+00A0, U+1680, U+2000..U+200A, U+2028,
U+2029, U+202F, U+205F and U+3000.  (Lean's own `Char.isWhitespace` covers
only the four ASCII characters, so it would be an unfaithful model.) -/
def rustIsWhitespace (c : Char) : Bool :=
  let n := c.toNat
  (0x9 ≤ n && n ≤ 0xD) || n == 0x20 || n == 0x85 || n == 0xA0 || n == 0x1680 ||
  (0x2000 ≤ n && n ≤ 0x200A) || n == 0x2028 || n == 0x2029 || n == 0x202F ||
  n == 0x205F || n == 0x3000

/-- Rust's `str::trim` (used by `submit_gift`'s validation): strip leading
and trailing Unicode `White_Space` characters.  Implemented structurally on
the character list so that concrete instances evaluate inside the kernel. -/
def rustTrim (s : String) : String :=
  String.mk (((s.data.dropWhile rustIsWhitespace).reverse.dropWhile rustIsWhitespace).reverse)

/-- Handler `submit_gift` from `backend/src/lib.rs`, after the game lookup: phase
check, non-empty-after-trim validation, membership check, then upsert of the
first gift submitted by this player, or append of a new gift whose id is the
freshly minted UUID `fresh_id`.  Returns the post-state and the gift echoed
in the response body. -/
def submit_gift (game : GameRecord) (player_id product_url hint : String)
    (image_url title : Option String) (fresh_id : String) :
    Except SubmitError (GameRecord × Gift) :=
  if game.phase ≠ GamePhase.submissions then .error .submissionsClosed
  else if (rustTrim product_url).isEmpty || (rustTrim hint).isEmpty then .error .badRequest
  else if ¬ game.players.any (fun p => p.id == player_id) then .error .playerNotFound
  else
    match game.gifts.find? (fun g => g.submitted_by == player_id) with
    | some g =>
      let g' := { g with
        product_url := product_url, hint := hint, image_url := image_url, title := title }
      .ok ({ game with
        gifts := updateFirst (fun x => x.submitted_by == player_id)
          (fun x => { x with
            product_url := product_url, hint := hint, image_url := image_url, title := title })
          game.gifts }, g')
    | none =>
      let gift : Gift :=
        { id := fresh_id, submitted_by := player_id, product_url := product_url,
          hint := hint, image_url := image_url, title := title, opened_by := none,
          held_by := none, stolen_count := 0, state := .unopened }
      .ok ({ game with gifts := game.gifts ++ [gift] }, gift)

/-! ## Definitions supporting the claims: the completion condition, the two
gift updates, the single-holding invariant, freshly started games, and
concrete demonstration games mirroring the Rust unit-test fixtures. -/

/-- Completion condition tested by `apply_action` after the action branch. -/
def finCond (g : Game) : Bool :=
  all_gifts_opened g.gifts && all_players_holding_one g.players g.gifts

/-- Inductive invariant for the single-holding property (claim about §3
invariant 4).  Besides the bound itself it records: unopened gifts are
unheld; the turn order has no duplicates; every player at a strictly later
baseline index than `current_turn` holds nothing; and the active player
holds nothing and does not occur at a strictly later baseline index. -/
def Inv (game : Game) : Prop :=
  (∀ pid, heldCount game.gifts pid ≤ 1) ∧
  (∀ g ∈ game.gifts, g.state = GiftState.unopened → g.held_by = none) ∧
  game.turn_order.Nodup ∧
  (∀ j (hj : j < game.turn_order.length), game.current_turn < j →
      heldCount game.gifts (game.turn_order.get ⟨j, hj⟩) = 0) ∧
  (∀ a, game.active_player = some a →
      heldCount game.gifts a = 0 ∧
      ∀ j (hj : j < game.turn_order.length), game.current_turn < j →
        game.turn_order.get ⟨j, hj⟩ ≠ a)

/-- A freshly started game, as produced by `start_game`: phase `in_progress`,
`current_turn` 0, every gift unopened with `opened_by`/`held_by` cleared,
`active_player = turn_order[0]` (`first().cloned()`), the turn order a
permutation of the player ids (spec §3: ids are unique within a game, hence
the turn order has no duplicates), and one gift per player. -/
def FreshlyStarted (game : Game) : Prop :=
  game.phase = GamePhase.inProgress ∧
  game.current_turn = 0 ∧
  (∀ g ∈ game.gifts, g.state = GiftState.unopened ∧ g.opened_by = none ∧ g.held_by = none) ∧
  game.active_player = game.turn_order.head? ∧
  List.Perm game.turn_order (game.players.map Player.id) ∧
  game.turn_order.Nodup ∧
  (∀ p ∈ game.players, game.gifts.countP (fun g => g.submitted_by == p.id) = 1)

instance (game : Game) : Decidable (FreshlyStarted game) := by
  unfold FreshlyStarted
  infer_instance

/-- Demo players/gifts mirroring the Rust unit-test fixtures. -/
def demoPlayer (i : String) : Player := { id := i, name := i, joined_at := 0 }

def demoUnopened (i sb : String) : Gift :=
  { id := i, submitted_by := sb, product_url := "u", hint := "h", image_url := none,
    title := none, opened_by := none, held_by := none, stolen_count := 0, state := .unopened }

def demoFresh : Game :=
  { id := "game1", phase := .inProgress,
    players := [demoPlayer "p1", demoPlayer "p2", demoPlayer "p3"],
    gifts := [demoUnopened "g1" "p1", demoUnopened "g2" "p2", demoUnopened "g3" "p3"],
    turn_order := ["p1", "p2", "p3"], current_turn := 0,
    active_player := some "p1", history := [] }

def demoActions : List PlayerAction :=
  [.chooseGift "p1" "g1", .stealGift "p2" "g1"]

def demoFinal : Game := (applyAll demoFresh demoActions).getD demoFresh

def demoOpened (i owner : String) : Gift :=
  { demoUnopened i owner with opened_by := some owner, held_by := some owner, state := .opened }

/-- Spec §8 scenario 2 start state: `g1` held by `p1`, `g2` held by `p2`,
`g3` unopened, `current_turn = 1`, active `p2`. -/
def scenario2Game : Game :=
  { demoFresh with
    gifts := [demoOpened "g1" "p1", demoOpened "g2" "p2", demoUnopened "g3" "p3"],
    current_turn := 1, active_player := some "p2" }

/-- The state after `StealGift{p2, g1}` from scenario 2. -/
def scenario2AfterSteal : Game := (apply_action scenario2Game (.stealGift "p2" "g1")).1

/-- A state exercising the completion branch after a steal: both gifts
opened, `p1` holding both, `p2` active. -/
def c5CounterGame : Game :=
  { id := "gx", phase := .inProgress,
    players := [demoPlayer "p1", demoPlayer "p2"],
    gifts := [demoOpened "g1" "p1", { demoOpened "g2" "p2" with held_by := some "p1" }],
    turn_order := ["p1", "p2"], current_turn := 1,
    active_player := some "p2", history := [] }

/-- A state exercising the completion branch after a choose with
`current_turn + 1 < |turn_order|`: one player, one gift, a longer turn
order. -/
def c6CounterGame : Game :=
  { id := "gy", phase := .inProgress, players := [demoPlayer "p1"],
    gifts := [demoUnopened "g1" "p1"], turn_order := ["p1", "p2", "p3"],
    current_turn := 0, active_player := some "p1", history := [] }

def c6Post : Game := (apply_action c6CounterGame (.chooseGift "p1" "g1")).1

def noActiveGame : Game := { demoFresh with active_player := none }

/-- Backend demo record in the submissions phase. -/
def demoRecord : GameRecord :=
  { id := "game1", host_token := "tok", players := [demoPlayer "p1"],
    gifts := [demoUnopened "g1" "p1"], phase := .submissions, turn_order := [],
    current_turn := 0, active_player := none, history := [] }

def demoStarted : GameRecord :=
  ((start_game demoRecord (some "tok") (fun _ => 0)).toOption).getD demoRecord

/-! ## List helper lemmas -/

theorem find?_decomp {p : α → Bool} {l : List α} {a : α} (h : l.find? p = some a) :
    ∃ l₁ l₂, l = l₁ ++ a :: l₂ ∧ ∀ x ∈ l₁, p x = false := by
  induction l with
  | nil => simp [List.find?] at h
  | cons b l ih =>
    rw [List.find?] at h
    by_cases hb : p b
    · rw [hb] at h
      simp only [Option.some.injEq] at h
      exact ⟨[], l, by rw [h]; rfl, by simp⟩
    · rw [Bool.not_eq_true] at hb
      rw [hb] at h
      obtain ⟨l₁, l₂, heq, hall⟩ := ih h
      exact ⟨b :: l₁, l₂, by rw [heq]; rfl, by
        intro x hx
        rcases List.mem_cons.1 hx with hx | hx
        · rw [hx]; exact hb
        · exact hall x hx⟩

theorem updateFirst_append {p : α → Bool} (f : α → α) {l₁ : List α} {a : α} (l₂ : List α)
    (h : ∀ x ∈ l₁, p x = false) (ha : p a = true) :
    updateFirst p f (l₁ ++ a :: l₂) = l₁ ++ f a :: l₂ := by
  induction l₁ with
  | nil => simp [updateFirst, ha]
  | cons b l₁ ih =>
    have hb : p b = false := h b (List.mem_cons_self b l₁)
    simp only [List.cons_append, updateFirst, hb]
    simp only [Bool.false_eq_true, if_false, List.cons.injEq, true_and]
    exact ih (fun x hx => h x (List.mem_cons_of_mem b hx))

theorem updateFirst_length (p : α → Bool) (f : α → α) (l : List α) :
    (updateFirst p f l).length = l.length := by
  induction l with
  | nil => rfl
  | cons a l ih =>
    simp only [updateFirst]
    split <;> simp [ih]

theorem listSwap_perm [DecidableEq α] (l : List α) (i j : Nat) :
    List.Perm (listSwap l i j) l := by
  unfold listSwap
  split
  · next a b hi hj =>
    rw [List.get?_eq_some] at hi hj
    obtain ⟨hi, hia⟩ := hi
    obtain ⟨hj, hjb⟩ := hj
    have hia' : l[i] = a := by simpa using hia
    have hjb' : l[j] = b := by simpa using hjb
    rw [List.perm_iff_count]
    intro x
    have hmem : a ∈ l := hia' ▸ l.getElem_mem hi
    have hca : (if a = x then 1 else 0) ≤ l.count x := by
      split
      · next hax => exact List.count_pos_iff.2 (hax ▸ hmem)
      · exact Nat.zero_le _
    by_cases hij : i = j
    · subst hij
      have ha : a = b := by rw [← hia', hjb']
      subst ha
      rw [List.set_set, List.count_set _ _ _ _ hi, hia']
      simp only [beq_iff_eq]
      omega
    · have hj' : j < (l.set i b).length := by rw [List.length_set]; exact hj
      rw [List.count_set a x (l.set i b) j hj', List.getElem_set_ne hij hj',
        List.count_set b x l i hi, hia', hjb']
      simp only [beq_iff_eq]
      omega
  · exact List.Perm.refl l

theorem fisherYatesAux_perm [DecidableEq α] (rand : Nat → Nat) (l : List α) (n : Nat) :
    List.Perm (fisherYatesAux rand l n) l := by
  induction n generalizing l with
  | zero => exact List.Perm.refl l
  | succ i ih =>
    exact (ih _).trans (listSwap_perm l (i + 1) (rand (i + 1) % (i + 2)))

theorem shuffle_perm [DecidableEq α] (l : List α) (rand : Nat → Nat) :
    List.Perm (shuffle l rand) l := by
  unfold shuffle
  split
  · exact List.Perm.refl l
  · exact fisherYatesAux_perm rand l _

/-! ## Rules-engine inversion lemmas and invariant preservation -/

theorem choose_gift_error {game : Game} {pid gid : String} {evs0 : List GameEvent}
    {g' : Game} {evs : List GameEvent} {e : GameError}
    (h : choose_gift game pid gid evs0 = (g', evs, some e)) : g' = game ∧ evs = evs0 := by
  unfold choose_gift at h
  split at h
  · exact ⟨(Prod.mk.injEq _ _ _ _ ▸ h).1.symm, by
      injection h with h1 h2; injection h2 with h3 h4; exact h3.symm⟩
  · split at h
    · injection h with h1 h2; injection h2 with h3 h4; cases h4
    · injection h with h1 h2; injection h2 with h3 h4
      exact ⟨h1.symm, h3.symm⟩

theorem steal_gift_error {game : Game} {pid gid : String} {evs0 : List GameEvent}
    {g' : Game} {evs : List GameEvent} {e : GameError}
    (h : steal_gift game pid gid evs0 = (g', evs, some e)) : g' = game ∧ evs = evs0 := by
  unfold steal_gift at h
  split at h
  · injection h with h1 h2; injection h2 with h3 h4; exact ⟨h1.symm, h3.symm⟩
  · split at h
    · injection h with h1 h2; injection h2 with h3 h4; exact ⟨h1.symm, h3.symm⟩
    · split at h
      · injection h with h1 h2; injection h2 with h3 h4; exact ⟨h1.symm, h3.symm⟩
      · split at h
        · injection h with h1 h2; injection h2 with h3 h4; exact ⟨h1.symm, h3.symm⟩
        · split at h
          · injection h with h1 h2; injection h2 with h3 h4; exact ⟨h1.symm, h3.symm⟩
          · split at h
            · injection h with h1 h2; injection h2 with h3 h4; exact ⟨h1.symm, h3.symm⟩
            · injection h with h1 h2; injection h2 with h3 h4; cases h4

theorem apply_action_ok_cases {game : Game} {act : PlayerAction} {g' : Game}
    {evs : List GameEvent} (h : apply_action game act = (g', Except.ok evs)) :
    ∃ g1 evs1,
      game.phase = GamePhase.inProgress ∧
      game.active_player = some act.actor ∧
      ((∃ gid, act = .chooseGift act.actor gid ∧
          choose_gift game act.actor gid [] = (g1, evs1, none)) ∨
       (∃ gid, act = .stealGift act.actor gid ∧
          steal_gift game act.actor gid [] = (g1, evs1, none))) ∧
      evs = evs1 ++ (if finCond g1 then [GameEvent.gameFinished] else []) ∧
      g' = { g1 with
        phase := if finCond g1 then GamePhase.finished else g1.phase,
        history := g1.history ++ evs } := by
  unfold apply_action at h
  split at h
  · cases h
  · next hphase =>
    have hph : game.phase = GamePhase.inProgress := not_not.1 hphase
    rcases hap : game.active_player with _ | ap
    · rw [hap] at h; cases h
    · rw [hap] at h
      dsimp only at h
      split at h
      · cases h
      · next hne =>
        have hap_eq : ap = act.actor := not_not.1 hne
        subst hap_eq
        cases act with
        | chooseGift pid gid =>
          dsimp only [PlayerAction.actor] at h
          rcases hstep : choose_gift game pid gid [] with ⟨g1, evs1, oerr⟩
          rw [hstep] at h
          cases oerr with
          | some e => cases h
          | none =>
            dsimp only at h
            rw [show (all_gifts_opened g1.gifts
              && all_players_holding_one g1.players g1.gifts) = finCond g1 from rfl] at h
            by_cases hfin : finCond g1
            · rw [if_pos hfin] at h
              injection h with h1 h2
              injection h2 with h2
              subst h1
              subst h2
              exact ⟨g1, evs1, hph, rfl, Or.inl ⟨gid, rfl, hstep⟩,
                by rw [if_pos hfin], by rw [if_pos hfin]⟩
            · rw [if_neg hfin] at h
              injection h with h1 h2
              injection h2 with h2
              subst h1
              subst h2
              exact ⟨g1, evs1, hph, rfl, Or.inl ⟨gid, rfl, hstep⟩,
                by rw [if_neg hfin]; simp, by rw [if_neg hfin]⟩
        | stealGift pid gid =>
          dsimp only [PlayerAction.actor] at h
          rcases hstep : steal_gift game pid gid [] with ⟨g1, evs1, oerr⟩
          rw [hstep] at h
          cases oerr with
          | some e => cases h
          | none =>
            dsimp only at h
            rw [show (all_gifts_opened g1.gifts
              && all_players_holding_one g1.players g1.gifts) = finCond g1 from rfl] at h
            by_cases hfin : finCond g1
            · rw [if_pos hfin] at h
              injection h with h1 h2
              injection h2 with h2
              subst h1
              subst h2
              exact ⟨g1, evs1, hph, rfl, Or.inr ⟨gid, rfl, hstep⟩,
                by rw [if_pos hfin], by rw [if_pos hfin]⟩
            · rw [if_neg hfin] at h
              injection h with h1 h2
              injection h2 with h2
              subst h1
              subst h2
              exact ⟨g1, evs1, hph, rfl, Or.inr ⟨gid, rfl, hstep⟩,
                by rw [if_neg hfin]; simp, by rw [if_neg hfin]⟩

theorem heldCount_append (l₁ l₂ : List Gift) (pid : String) :
    heldCount (l₁ ++ l₂) pid = heldCount l₁ pid + heldCount l₂ pid :=
  List.countP_append _ _ _

theorem heldCount_cons (g : Gift) (l : List Gift) (pid : String) :
    heldCount (g :: l) pid = heldCount l pid + (if g.held_by = some pid then 1 else 0) := by
  simp only [heldCount, List.countP_cons, beq_iff_eq]

theorem heldCount_updateFirst {gifts : List Gift} {p : Gift → Bool} (f : Gift → Gift)
    {g : Gift} (h : gifts.find? p = some g) (pid : String) :
    heldCount (updateFirst p f gifts) pid + (if g.held_by = some pid then 1 else 0)
      = heldCount gifts pid + (if (f g).held_by = some pid then 1 else 0) := by
  obtain ⟨l₁, l₂, heq, hl₁⟩ := find?_decomp h
  subst heq
  rw [updateFirst_append f l₂ hl₁ (List.find?_some h)]
  rw [heldCount_append, heldCount_append, heldCount_cons, heldCount_cons]
  omega

theorem mem_updateFirst {p : Gift → Bool} {f : Gift → Gift} {gifts : List Gift} {g : Gift}
    (h : gifts.find? p = some g) {x : Gift} (hx : x ∈ updateFirst p f gifts) :
    x = f g ∨ x ∈ gifts := by
  obtain ⟨l₁, l₂, heq, hl₁⟩ := find?_decomp h
  subst heq
  rw [updateFirst_append f l₂ hl₁ (List.find?_some h)] at hx
  rcases List.mem_append.1 hx with hx | hx
  · exact Or.inr (List.mem_append.2 (Or.inl hx))
  · rcases List.mem_cons.1 hx with hx | hx
    · exact Or.inl hx
    · exact Or.inr (List.mem_append.2 (Or.inr (List.mem_cons.2 (Or.inr hx))))

theorem heldCount_pos_of_mem {gifts : List Gift} {g : Gift} (hm : g ∈ gifts) {pid : String}
    (hh : g.held_by = some pid) : 0 < heldCount gifts pid := by
  rw [heldCount, List.countP_pos_iff]
  exact ⟨g, hm, by rw [hh]; simp⟩

theorem choose_gift_ok {game : Game} {pid gid : String} {evs0 : List GameEvent}
    {g' : Game} {evs : List GameEvent}
    (h : choose_gift game pid gid evs0 = (g', evs, none)) :
    ∃ g, game.gifts.find? (fun x => x.id == gid) = some g ∧
      g.state = GiftState.unopened ∧
      ((∃ hlt : game.current_turn + 1 < game.turn_order.length,
          g' = { game with
            gifts := updateFirst (fun x => x.id == gid) (openFor pid) game.gifts,
            current_turn := game.current_turn + 1,
            active_player := some (game.turn_order.get ⟨game.current_turn + 1, hlt⟩) } ∧
          evs = evs0 ++ [.giftOpened pid gid,
            .turnChanged (game.turn_order.get ⟨game.current_turn + 1, hlt⟩)]) ∨
       (¬ game.current_turn + 1 < game.turn_order.length ∧
          g' = { game with
            gifts := updateFirst (fun x => x.id == gid) (openFor pid) game.gifts,
            active_player := none } ∧
          evs = evs0 ++ [.giftOpened pid gid])) := by
  unfold choose_gift at h
  split at h
  · cases h
  · next g hfind =>
    split at h
    · next hst =>
      refine ⟨g, hfind, hst, ?_⟩
      unfold advance_turn at h
      dsimp only at h
      split at h
      · next hlt =>
        injection h with h1 h2
        injection h2 with h2
        exact Or.inl ⟨hlt, h1.symm, by rw [← h2]; simp⟩
      · next hlt =>
        injection h with h1 h2
        injection h2 with h2
        exact Or.inr ⟨hlt, h1.symm, h2.symm⟩
    · cases h

theorem steal_gift_ok {game : Game} {pid gid : String} {evs0 : List GameEvent}
    {g' : Game} {evs : List GameEvent}
    (h : steal_gift game pid gid evs0 = (g', evs, none)) :
    ∃ g holder, game.gifts.find? (fun x => x.id == gid) = some g ∧
      g.held_by = some holder ∧ g.state = GiftState.opened ∧ holder ≠ pid ∧
      g.stolen_count < 3 ∧ immediate_steal_back game pid holder = false ∧
      g' = { game with
        gifts := updateFirst (fun x => x.id == gid) (stealFor pid) game.gifts,
        active_player := some holder } ∧
      evs = evs0 ++ [.giftStolen holder pid gid, .turnChanged holder] := by
  unfold steal_gift at h
  split at h
  · cases h
  · next g hfind =>
    split at h
    · cases h
    · next holder hheld =>
      split at h
      · cases h
      · next hst =>
        split at h
        · cases h
        · next hown =>
          split at h
          · cases h
          · next hlim =>
            split at h
            · cases h
            · next hsb =>
              injection h with h1 h2
              injection h2 with h2
              refine ⟨g, holder, hfind, hheld, not_not.1 hst, hown, ?_,
                Bool.not_eq_true _ ▸ hsb, h1.symm, h2.symm⟩
              omega

theorem choose_gift_inv {game : Game} {pid gid : String} {evs0 evs : List GameEvent} {g' : Game}
    (hI : Inv game) (hact : game.active_player = some pid)
    (h : choose_gift game pid gid evs0 = (g', evs, none)) : Inv g' := by
  obtain ⟨hcounts, hunheld, hnodup, htail, hactive⟩ := hI
  obtain ⟨hact0, hactfree⟩ := hactive pid hact
  obtain ⟨g, hfind, hst, hcase⟩ := choose_gift_ok h
  have hgheld : g.held_by = none := hunheld g (List.mem_of_find?_eq_some hfind) hst
  have hcnt : ∀ q, heldCount (updateFirst (fun x => x.id == gid) (openFor pid) game.gifts) q
      = heldCount game.gifts q + (if pid = q then 1 else 0) := by
    intro q
    have hthis := heldCount_updateFirst (openFor pid) hfind q
    rw [hgheld, show (openFor pid g).held_by = some pid from rfl] at hthis
    simp only [Option.some.injEq] at hthis
    simpa using hthis
  have hunheld' : ∀ x ∈ updateFirst (fun x => x.id == gid) (openFor pid) game.gifts,
      x.state = GiftState.unopened → x.held_by = none := by
    intro x hx hxs
    rcases mem_updateFirst hfind hx with hx | hx
    · rw [hx] at hxs; cases hxs
    · exact hunheld x hx hxs
  have hcounts' : ∀ q,
      heldCount (updateFirst (fun x => x.id == gid) (openFor pid) game.gifts) q ≤ 1 := by
    intro q
    rw [hcnt q]
    by_cases hq : pid = q
    · subst hq
      rw [hact0]
      simp
    · rw [if_neg hq]
      simpa using hcounts q
  rcases hcase with ⟨hlt, hg', hevs⟩ | ⟨hlt, hg', hevs⟩
  · subst hg'
    refine ⟨hcounts', hunheld', hnodup, ?_, ?_⟩
    · intro j hj hjgt
      have hj' : game.current_turn < j := by
        simp only at hjgt
        omega
      rw [hcnt, htail j hj hj', if_neg (Ne.symm (hactfree j hj hj'))]
    · intro a ha
      simp only [Option.some.injEq] at ha
      subst ha
      have h1 : game.current_turn < game.current_turn + 1 := Nat.lt_succ_self _
      constructor
      · rw [hcnt, htail _ hlt h1, if_neg (Ne.symm (hactfree _ hlt h1))]
      · intro j hj hjgt heq
        have hji := (List.Nodup.get_inj_iff hnodup).1 heq
        have : j = game.current_turn + 1 := congrArg Fin.val hji
        simp only at hjgt
        omega
  · subst hg'
    refine ⟨hcounts', hunheld', hnodup, ?_, ?_⟩
    · intro j hj hjgt
      rw [hcnt, htail j hj hjgt, if_neg (Ne.symm (hactfree j hj hjgt))]
    · intro a ha
      cases ha

theorem steal_gift_inv {game : Game} {pid gid : String} {evs0 evs : List GameEvent} {g' : Game}
    (hI : Inv game) (hact : game.active_player = some pid)
    (h : steal_gift game pid gid evs0 = (g', evs, none)) : Inv g' := by
  obtain ⟨hcounts, hunheld, hnodup, htail, hactive⟩ := hI
  obtain ⟨hact0, hactfree⟩ := hactive pid hact
  obtain ⟨g, holder, hfind, hheld, hst, hne, hlim, hsb, hg', hevs⟩ := steal_gift_ok h
  have hmem := List.mem_of_find?_eq_some hfind
  have hone : heldCount game.gifts holder = 1 :=
    Nat.le_antisymm (hcounts holder) (heldCount_pos_of_mem hmem hheld)
  have hcnt : ∀ q, heldCount (updateFirst (fun x => x.id == gid) (stealFor pid) game.gifts) q
      + (if holder = q then 1 else 0) = heldCount game.gifts q + (if pid = q then 1 else 0) := by
    intro q
    have hthis := heldCount_updateFirst (stealFor pid) hfind q
    rw [hheld, show (stealFor pid g).held_by = some pid from rfl] at hthis
    simpa [Option.some.injEq] using hthis
  have hTne : ∀ j (hj : j < game.turn_order.length), game.current_turn < j →
      game.turn_order.get ⟨j, hj⟩ ≠ holder := by
    intro j hj hjgt heq
    have := htail j hj hjgt
    rw [heq, hone] at this
    cases this
  subst hg'
  refine ⟨?_, ?_, hnodup, ?_, ?_⟩
  · intro q
    dsimp only
    have hthis := hcnt q
    by_cases hq : pid = q
    · subst hq
      rw [if_neg (fun hc => hne hc), hact0, if_pos rfl] at hthis
      omega
    · by_cases hq2 : holder = q
      · subst hq2
        rw [if_pos rfl, if_neg hq, hone] at hthis
        omega
      · rw [if_neg hq2, if_neg hq] at hthis
        have := hcounts q
        omega
  · intro x hx hxs
    rcases mem_updateFirst hfind hx with hx | hx
    · rw [hx] at hxs
      simp only [stealFor] at hxs
      rw [hst] at hxs
      cases hxs
    · exact hunheld x hx hxs
  · intro j hj hjgt
    dsimp only at hjgt ⊢
    have hthis := hcnt (game.turn_order.get ⟨j, hj⟩)
    rw [if_neg (Ne.symm (hTne j hj hjgt)), if_neg (Ne.symm (hactfree j hj hjgt)),
      htail j hj hjgt] at hthis
    omega
  · intro a ha
    dsimp only at ha
    simp only [Option.some.injEq] at ha
    subst ha
    constructor
    · dsimp only
      have hthis := hcnt holder
      rw [if_pos rfl, if_neg (fun hc => hne hc.symm), hone] at hthis
      omega
    · exact fun j hj hjgt => hTne j hj hjgt

theorem apply_action_inv {game : Game} {act : PlayerAction} {g' : Game} {evs : List GameEvent}
    (hI : Inv game) (h : apply_action game act = (g', Except.ok evs)) : Inv g' := by
  obtain ⟨g1, evs1, hph, hap, hcase, hevs, hg'⟩ := apply_action_ok_cases h
  have hInv1 : Inv g1 := by
    rcases hcase with ⟨gid, hact, hstep⟩ | ⟨gid, hact, hstep⟩
    · exact choose_gift_inv hI hap hstep
    · exact steal_gift_inv hI hap hstep
  subst hg'
  obtain ⟨h1, h2, h3, h4, h5⟩ := hInv1
  exact ⟨h1, h2, h3, h4, h5⟩

theorem fresh_inv {game : Game} (h : FreshlyStarted game) : Inv game := by
  obtain ⟨hph, hct, hgifts, hact, hperm, hnodup, hone⟩ := h
  have hzero : ∀ q, heldCount game.gifts q = 0 := by
    intro q
    rw [heldCount, List.countP_eq_zero]
    intro g hg
    rw [(hgifts g hg).2.2]
    simp
  refine ⟨fun q => le_of_eq_of_le (hzero q) (by omega),
    fun g hg _ => (hgifts g hg).2.2, hnodup,
    fun j hj _ => hzero _, ?_⟩
  intro a ha
  refine ⟨hzero a, ?_⟩
  intro j hj hjgt heq
  rw [hct] at hjgt
  have hhead : game.turn_order.head? = some a := by rw [← hact, ha]
  obtain ⟨t, hT⟩ : ∃ t, game.turn_order = a :: t := by
    cases hT2 : game.turn_order with
    | nil => rw [hT2] at hhead; cases hhead
    | cons b rest =>
      rw [hT2] at hhead
      injection hhead with hb
      subst hb
      exact ⟨rest, rfl⟩
  have h0 : 0 < game.turn_order.length := by rw [hT]; simp
  have ha0 : game.turn_order.get ⟨0, h0⟩ = a := by simp [hT]
  have hji := (List.Nodup.get_inj_iff hnodup).1 (heq.trans ha0.symm)
  have hj0 : j = 0 := congrArg Fin.val hji
  omega

theorem applyAll_inv {game : Game} {acts : List PlayerAction} {g : Game}
    (hI : Inv game) (h : applyAll game acts = some g) : Inv g := by
  induction acts generalizing game with
  | nil =>
    unfold applyAll at h
    injection h with h
    exact h ▸ hI
  | cons a rest ih =>
    unfold applyAll at h
    rcases hstep : apply_action game a with ⟨g1, r⟩
    rw [hstep] at h
    cases r with
    | ok evs => exact ih (apply_action_inv hI hstep) h
    | error e => cases h

/-- Claim C3: from a freshly started game, along any sequence of successful
actions, every player holds at most one gift in every intermediate state
(each intermediate state is the end state of a prefix of the sequence, and
the action list is universally quantified). -/
theorem single_holding_invariant (g0 : Game) (acts : List PlayerAction) (g : Game)
    (h0 : FreshlyStarted g0) (h : applyAll g0 acts = some g) (pid : String) :
    heldCount g.gifts pid ≤ 1 :=
  (applyAll_inv (fresh_inv h0) h).1 pid

theorem single_holding_invariant_witness :
    FreshlyStarted demoFresh ∧ applyAll demoFresh demoActions = some demoFinal ∧
    heldCount demoFinal.gifts "p2" ≤ 1 :=
  ⟨by decide, by decide,
    single_holding_invariant demoFresh demoActions demoFinal (by decide) (by decide) "p2"⟩

/-! ## Claim theorems, counterexamples and witnesses -/

theorem find?_eq_of_prefix_false {p : α → Bool} {l₁ : List α} (l₂ : List α)
    (h : ∀ x ∈ l₁, p x = false) : (l₁ ++ l₂).find? p = l₂.find? p := by
  induction l₁ with
  | nil => rfl
  | cons a l₁ ih =>
    rw [List.cons_append, List.find?]
    rw [h a (List.mem_cons_self a l₁)]
    exact ih (fun x hx => h x (List.mem_cons_of_mem a hx))

theorem find?_updateFirst {p : Gift → Bool} {f : Gift → Gift} {l : List Gift} {g : Gift}
    (h : l.find? p = some g) (hf : p (f g) = true) :
    (updateFirst p f l).find? p = some (f g) := by
  obtain ⟨l₁, l₂, heq, hl₁⟩ := find?_decomp h
  subst heq
  rw [updateFirst_append f l₂ hl₁ (List.find?_some h)]
  rw [find?_eq_of_prefix_false _ hl₁, List.find?]
  rw [hf]

/-- Claim C4 amended: stealing an unopened (hence unheld) gift is rejected
with `InvalidAction`, because `steal_gift` extracts the holder with
`ok_or(InvalidAction)?` before it tests the gift state. -/
theorem steal_unopened_invalid_action {game : Game} {actor gid : String} {g : Gift}
    (hph : game.phase = GamePhase.inProgress)
    (hact : game.active_player = some actor)
    (hfind : game.gifts.find? (fun x => x.id == gid) = some g)
    (hst : g.state = GiftState.unopened)
    (hheld : g.held_by = none) :
    apply_action game (.stealGift actor gid) = (game, Except.error GameError.InvalidAction) := by
  unfold apply_action
  rw [if_neg (by rw [hph]; exact fun hc => hc rfl)]
  rw [hact]
  dsimp only
  rw [if_neg (fun hc => hc rfl)]
  unfold steal_gift
  rw [hfind]
  dsimp only
  rw [hheld]

/-- Claim C5 amended: a legal steal increments the gift's `stolen_count`,
hands it to the actor, keeps `current_turn`, forces the victim as active
player, and returns `gift_stolen` then `turn_changed`, followed by
`game_finished` exactly when the completion condition holds afterwards. -/
theorem steal_forces_victim {game : Game} {actor gid holder : String} {g : Gift}
    (hph : game.phase = GamePhase.inProgress)
    (hact : game.active_player = some actor)
    (hfind : game.gifts.find? (fun x => x.id == gid) = some g)
    (hopen : g.state = GiftState.opened)
    (hheld : g.held_by = some holder)
    (hne : holder ≠ actor)
    (hlim : g.stolen_count < 3)
    (hsb : immediate_steal_back game actor holder = false) :
    ∃ gifts' evs,
      gifts' = updateFirst (fun x => x.id == gid) (stealFor actor) game.gifts ∧
      evs = [GameEvent.giftStolen holder actor gid, GameEvent.turnChanged holder]
        ++ (if all_gifts_opened gifts' && all_players_holding_one game.players gifts' then
              [GameEvent.gameFinished] else []) ∧
      apply_action game (.stealGift actor gid)
        = ({ game with
              gifts := gifts',
              active_player := some holder,
              phase := if all_gifts_opened gifts' && all_players_holding_one game.players gifts'
                then GamePhase.finished else game.phase,
              history := game.history ++ evs }, Except.ok evs) ∧
      gifts'.find? (fun x => x.id == gid) = some (stealFor actor g) ∧
      (stealFor actor g).stolen_count = g.stolen_count + 1 ∧
      (stealFor actor g).held_by = some actor := by
  have hfg0 := List.find?_some hfind
  have hfg : ((stealFor actor g).id == gid) = true := hfg0
  refine ⟨_, _, rfl, rfl, ?_, find?_updateFirst hfind hfg, rfl, rfl⟩
  unfold apply_action
  rw [if_neg (by rw [hph]; exact fun hc => hc rfl)]
  rw [hact]
  dsimp only
  rw [if_neg (fun hc => hc rfl)]
  unfold steal_gift
  rw [hfind]
  dsimp only
  rw [hheld]
  dsimp only
  rw [if_neg (by rw [hopen]; exact fun hc => hc rfl)]
  rw [if_neg hne]
  rw [if_neg (by omega)]
  rw [if_neg (by rw [hsb]; simp)]
  dsimp only
  by_cases hfin : (all_gifts_opened (updateFirst (fun x => x.id == gid) (stealFor actor) game.gifts)
      && all_players_holding_one game.players
        (updateFirst (fun x => x.id == gid) (stealFor actor) game.gifts)) = true
  · rw [if_pos hfin, if_pos hfin, if_pos hfin]
    simp
  · rw [if_neg hfin, if_neg hfin, if_neg hfin]
    simp [hph]

/-- Claim C6 amended: a legal choose opens the gift for the actor, advances
`current_turn` by one, activates the player at the new index, and returns
`gift_opened` then `turn_changed`, followed by `game_finished` exactly when
the completion condition holds afterwards. -/
theorem choose_gift_opens_and_advances {game : Game} {actor gid : String} {g : Gift}
    (hph : game.phase = GamePhase.inProgress)
    (hact : game.active_player = some actor)
    (hfind : game.gifts.find? (fun x => x.id == gid) = some g)
    (hst : g.state = GiftState.unopened)
    (hlt : game.current_turn + 1 < game.turn_order.length) :
    ∃ gifts' evs,
      gifts' = updateFirst (fun x => x.id == gid) (openFor actor) game.gifts ∧
      evs = [GameEvent.giftOpened actor gid,
          GameEvent.turnChanged (game.turn_order.get ⟨game.current_turn + 1, hlt⟩)]
        ++ (if all_gifts_opened gifts' && all_players_holding_one game.players gifts' then
              [GameEvent.gameFinished] else []) ∧
      apply_action game (.chooseGift actor gid)
        = ({ game with
              gifts := gifts',
              current_turn := game.current_turn + 1,
              active_player := some (game.turn_order.get ⟨game.current_turn + 1, hlt⟩),
              phase := if all_gifts_opened gifts' && all_players_holding_one game.players gifts'
                then GamePhase.finished else game.phase,
              history := game.history ++ evs }, Except.ok evs) ∧
      gifts'.find? (fun x => x.id == gid) = some (openFor actor g) ∧
      (openFor actor g).state = GiftState.opened ∧
      (openFor actor g).opened_by = some actor ∧
      (openFor actor g).held_by = some actor := by
  have hfg0 := List.find?_some hfind
  have hfg : ((openFor actor g).id == gid) = true := hfg0
  refine ⟨_, _, rfl, rfl, ?_, find?_updateFirst hfind hfg, rfl, rfl, rfl⟩
  unfold apply_action
  rw [if_neg (by rw [hph]; exact fun hc => hc rfl)]
  rw [hact]
  dsimp only
  rw [if_neg (fun hc => hc rfl)]
  unfold choose_gift
  rw [hfind]
  dsimp only
  rw [if_pos hst]
  unfold advance_turn
  dsimp only
  rw [dif_pos hlt]
  dsimp only
  by_cases hfin : (all_gifts_opened (updateFirst (fun x => x.id == gid) (openFor actor) game.gifts)
      && all_players_holding_one game.players
        (updateFirst (fun x => x.id == gid) (openFor actor) game.gifts)) = true
  · rw [if_pos hfin, if_pos hfin, if_pos hfin]
    simp
  · rw [if_neg hfin, if_neg hfin, if_neg hfin]
    simp [hph]

theorem choose_gift_error_mem {game : Game} {pid gid : String} {evs0 : List GameEvent}
    {g1 : Game} {evs : List GameEvent} {e : GameError}
    (h : choose_gift game pid gid evs0 = (g1, evs, some e)) :
    e = GameError.GiftNotFound ∨ e = GameError.GiftAlreadyOpened := by
  unfold choose_gift at h
  split at h
  · injection h with a1 a2
    injection a2 with a2 a3
    injection a3 with a3
    exact Or.inl a3.symm
  · split at h
    · injection h with a1 a2
      injection a2 with a2 a3
      cases a3
    · injection h with a1 a2
      injection a2 with a2 a3
      injection a3 with a3
      exact Or.inr a3.symm

theorem steal_gift_error_mem {game : Game} {pid gid : String} {evs0 : List GameEvent}
    {g1 : Game} {evs : List GameEvent} {e : GameError}
    (h : steal_gift game pid gid evs0 = (g1, evs, some e)) :
    e = GameError.GiftNotFound ∨ e = GameError.InvalidAction ∨ e = GameError.GiftUnopened ∨
    e = GameError.CannotStealOwnGift ∨ e = GameError.StealLimitReached ∨
    e = GameError.StealBackNotAllowed := by
  unfold steal_gift at h
  split at h
  · injection h with a1 a2
    injection a2 with a2 a3
    injection a3 with a3
    exact Or.inl a3.symm
  · split at h
    · injection h with a1 a2
      injection a2 with a2 a3
      injection a3 with a3
      exact Or.inr (Or.inl a3.symm)
    · split at h
      · injection h with a1 a2
        injection a2 with a2 a3
        injection a3 with a3
        exact Or.inr (Or.inr (Or.inl a3.symm))
      · split at h
        · injection h with a1 a2
          injection a2 with a2 a3
          injection a3 with a3
          exact Or.inr (Or.inr (Or.inr (Or.inl a3.symm)))
        · split at h
          · injection h with a1 a2
            injection a2 with a2 a3
            injection a3 with a3
            exact Or.inr (Or.inr (Or.inr (Or.inr (Or.inl a3.symm))))
          · split at h
            · injection h with a1 a2
              injection a2 with a2 a3
              injection a3 with a3
              exact Or.inr (Or.inr (Or.inr (Or.inr (Or.inr a3.symm))))
            · injection h with a1 a2
              injection a2 with a2 a3
              cases a3

/-- Claim C2: a failing action leaves the game exactly as it was. -/
theorem apply_action_error_atomic {game : Game} {act : PlayerAction} {g' : Game}
    {e : GameError} (h : apply_action game act = (g', Except.error e)) : g' = game := by
  unfold apply_action at h
  split at h
  · injection h with h1 h2
    exact h1.symm
  · rcases hap : game.active_player with _ | ap
    · rw [hap] at h
      injection h with h1 h2
      exact h1.symm
    · rw [hap] at h
      dsimp only at h
      split at h
      · injection h with h1 h2
        exact h1.symm
      · cases act with
        | chooseGift pid gid =>
          dsimp only at h
          rcases hstep : choose_gift game pid gid [] with ⟨g1, evs1, oerr⟩
          rw [hstep] at h
          cases oerr with
          | some e2 =>
            injection h with h1 h2
            exact h1.symm.trans (choose_gift_error hstep).1
          | none =>
            dsimp only at h
            split at h <;> (injection h with h1 h2; cases h2)
        | stealGift pid gid =>
          dsimp only at h
          rcases hstep : steal_gift game pid gid [] with ⟨g1, evs1, oerr⟩
          rw [hstep] at h
          cases oerr with
          | some e2 =>
            injection h with h1 h2
            exact h1.symm.trans (steal_gift_error hstep).1
          | none =>
            dsimp only at h
            split at h <;> (injection h with h1 h2; cases h2)

/-- Claim C7: after any successful action, the phase is `finished` exactly
when all gifts are opened and every player holds exactly one gift; and when
the action finished the game, `game_finished` is the last returned event. -/
theorem completion_detection {game : Game} {act : PlayerAction} {g' : Game}
    {evs : List GameEvent} (h : apply_action game act = (g', Except.ok evs)) :
    (g'.phase = GamePhase.finished ↔
      (all_gifts_opened g'.gifts = true ∧ all_players_holding_one g'.players g'.gifts = true)) ∧
    (g'.phase = GamePhase.finished → evs.getLast? = some GameEvent.gameFinished) := by
  obtain ⟨g1, evs1, hph, hap, hcase, hevs, hg'⟩ := apply_action_ok_cases h
  have hph1 : g1.phase = GamePhase.inProgress := by
    rcases hcase with ⟨gid, hact, hstep⟩ | ⟨gid, hact, hstep⟩
    · obtain ⟨g, -, -, hdone⟩ := choose_gift_ok hstep
      rcases hdone with ⟨hlt, hg1, -⟩ | ⟨hlt, hg1, -⟩ <;> rw [hg1] <;> exact hph
    · obtain ⟨g, holder, -, -, -, -, -, -, hg1, -⟩ := steal_gift_ok hstep
      rw [hg1]
      exact hph
  subst hg'
  subst hevs
  by_cases hfin : finCond g1
  · have hsplit := hfin
    rw [finCond, Bool.and_eq_true] at hsplit
    refine ⟨⟨fun _ => ⟨hsplit.1, hsplit.2⟩, fun _ => ?_⟩, fun _ => ?_⟩
    · dsimp only
      rw [if_pos hfin]
    · rw [if_pos hfin, List.getLast?_concat]
  · constructor
    · constructor
      · intro hc
        dsimp only at hc
        rw [if_neg hfin, hph1] at hc
        cases hc
      · intro hc
        rw [finCond, Bool.and_eq_true] at hfin
        exact absurd ⟨hc.1, hc.2⟩ hfin
    · intro hc
      dsimp only at hc
      rw [if_neg hfin, hph1] at hc
      cases hc

/-- Claim C10: with the phase `in_progress` but no active player, every
action is rejected with `InvalidAction` and the state is unchanged; and
`NotPlayersTurn` arises only when an active player other than the actor is
set. -/
theorem active_none_invalid_action (game : Game) (act : PlayerAction) :
    (game.phase = GamePhase.inProgress → game.active_player = none →
      apply_action game act = (game, Except.error GameError.InvalidAction)) ∧
    (∀ g' : Game, apply_action game act = (g', Except.error GameError.NotPlayersTurn) →
      ∃ p, game.active_player = some p ∧ p ≠ act.actor) := by
  constructor
  · intro hph hap
    unfold apply_action
    rw [if_neg (by rw [hph]; exact fun hc => hc rfl)]
    rw [hap]
  · intro g' h
    unfold apply_action at h
    split at h
    · injection h with h1 h2
      cases h2
    · rcases hap : game.active_player with _ | ap
      · rw [hap] at h
        injection h with h1 h2
        cases h2
      · rw [hap] at h
        dsimp only at h
        split at h
        · next hne => exact ⟨ap, rfl, hne⟩
        · cases act with
          | chooseGift pid gid =>
            dsimp only at h
            rcases hstep : choose_gift game pid gid [] with ⟨g1, evs1, oerr⟩
            rw [hstep] at h
            cases oerr with
            | some e2 =>
              injection h with h1 h2
              injection h2 with h2
              rcases choose_gift_error_mem hstep with rfl | rfl <;> cases h2
            | none =>
              dsimp only at h
              split at h <;> (injection h with h1 h2; cases h2)
          | stealGift pid gid =>
            dsimp only at h
            rcases hstep : steal_gift game pid gid [] with ⟨g1, evs1, oerr⟩
            rw [hstep] at h
            cases oerr with
            | some e2 =>
              injection h with h1 h2
              injection h2 with h2
              rcases steal_gift_error_mem hstep with rfl | rfl | rfl | rfl | rfl | rfl <;>
                cases h2
            | none =>
              dsimp only at h
              split at h <;> (injection h with h1 h2; cases h2)

/-- Claim C8: a successful start puts the game `in_progress` at turn 0 with
an empty history, resets every gift, installs a turn order that is a
permutation of the player ids, and activates its first entry. -/
theorem start_game_postconditions {game : GameRecord} {tok : Option String}
    {rand : Nat → Nat} {res : GameRecord} (h : start_game game tok rand = Except.ok res) :
    res.phase = GamePhase.inProgress ∧
    res.current_turn = 0 ∧
    res.history = [] ∧
    (∀ g ∈ res.gifts, g.state = GiftState.unopened ∧ g.opened_by = none ∧
      g.held_by = none ∧ g.stolen_count = 0) ∧
    List.Perm res.turn_order (game.players.map Player.id) ∧
    res.turn_order ≠ [] ∧
    res.active_player = res.turn_order.head? := by
  unfold start_game at h
  rcases tok with _ | t
  · cases h
  · dsimp only at h
    split at h
    · cases h
    · split at h
      · cases h
      · split at h
        · cases h
        · next hplayers =>
          split at h
          · cases h
          · injection h with h
            subst h
            refine ⟨rfl, rfl, rfl, ?_, shuffle_perm _ rand, ?_, rfl⟩
            · intro g hg
              rw [List.mem_map] at hg
              obtain ⟨g0, hg0, rfl⟩ := hg
              exact ⟨rfl, rfl, rfl, rfl⟩
            · intro hnil
              dsimp only at hnil
              have hlen := (shuffle_perm (game.players.map Player.id) rand).length_eq
              rw [hnil] at hlen
              simp only [List.length_nil, List.length_map] at hlen
              rw [List.isEmpty_iff_length_eq_zero] at hplayers
              exact hplayers hlen.symm

/-- Claim C9: during submissions, a re-submission by a player who already has
a gift overwrites only the mutable fields of that gift in place, and a first
submission appends one fresh unopened gift. -/
theorem submit_gift_upsert {game : GameRecord} {pid pu hintv : String}
    {iu ti : Option String} {fid : String}
    (hph : game.phase = GamePhase.submissions)
    (hpu : (rustTrim pu).isEmpty = false)
    (hhint : (rustTrim hintv).isEmpty = false)
    (hmem : (game.players.any (fun p => p.id == pid)) = true) :
    (∀ g, game.gifts.find? (fun x => x.submitted_by == pid) = some g →
      ∃ l₁ l₂ g',
        game.gifts = l₁ ++ g :: l₂ ∧
        submit_gift game pid pu hintv iu ti fid
          = Except.ok ({ game with gifts := l₁ ++ g' :: l₂ }, g') ∧
        g'.id = g.id ∧ g'.submitted_by = g.submitted_by ∧ g'.opened_by = g.opened_by ∧
        g'.held_by = g.held_by ∧ g'.stolen_count = g.stolen_count ∧ g'.state = g.state ∧
        g'.product_url = pu ∧ g'.hint = hintv ∧ g'.image_url = iu ∧ g'.title = ti ∧
        (l₁ ++ g' :: l₂).length = game.gifts.length) ∧
    (game.gifts.find? (fun x => x.submitted_by == pid) = none →
      ∃ gift, submit_gift game pid pu hintv iu ti fid
          = Except.ok ({ game with gifts := game.gifts ++ [gift] }, gift) ∧
        gift.id = fid ∧ gift.submitted_by = pid ∧ gift.state = GiftState.unopened ∧
        gift.opened_by = none ∧ gift.held_by = none ∧ gift.stolen_count = 0 ∧
        gift.product_url = pu ∧ gift.hint = hintv ∧ gift.image_url = iu ∧ gift.title = ti ∧
        (game.gifts ++ [gift]).length = game.gifts.length + 1) := by
  constructor
  · intro g hfind
    obtain ⟨l₁, l₂, heq, hl₁⟩ := find?_decomp hfind
    refine ⟨l₁, l₂, { g with product_url := pu, hint := hintv, image_url := iu, title := ti }, heq, ?_, rfl, rfl, rfl, rfl, rfl, rfl, rfl, rfl, rfl, rfl, ?_⟩
    · unfold submit_gift
      rw [if_neg (by rw [hph]; exact fun hc => hc rfl)]
      rw [if_neg (by rw [hpu, hhint]; simp)]
      rw [if_neg (fun hc => hc hmem)]
      rw [hfind]
      dsimp only
      have hpg := List.find?_some hfind
      rw [heq, updateFirst_append
        (fun x => { x with product_url := pu, hint := hintv, image_url := iu, title := ti })
        l₂ hl₁ hpg]
    · rw [heq]
      simp
  · intro hfind
    refine ⟨⟨fid, pid, pu, hintv, iu, ti, none, none, 0, .unopened⟩,
      ?_, rfl, rfl, rfl, rfl, rfl, rfl, rfl, rfl, rfl, rfl, ?_⟩
    · unfold submit_gift
      rw [if_neg (by rw [hph]; exact fun hc => hc rfl)]
      rw [if_neg (by rw [hpu, hhint]; simp)]
      rw [if_neg (fun hc => hc hmem)]
      rw [hfind]
    · simp

/-- Claim C1 (code bug): continuing spec scenario 2 through `apply_action`,
the immediate steal-back is NOT rejected.  After a real steal the last entry
of `history` is the trailing `turn_changed` event, so `immediate_steal_back`,
which inspects only `history.last()`, never sees the `gift_stolen`; the Rust
unit test only passes because it seeds `history` with a bare `gift_stolen`.
The final conjunct shows that with such a bare history the check does fire. -/
theorem steal_back_not_rejected_bug :
    (apply_action scenario2Game (.stealGift "p2" "g1")).2
      = Except.ok [GameEvent.giftStolen "p1" "p2" "g1", GameEvent.turnChanged "p1"] ∧
    scenario2AfterSteal.history.getLast? = some (GameEvent.turnChanged "p1") ∧
    (apply_action scenario2AfterSteal (.stealGift "p1" "g1")).2
      = Except.ok [GameEvent.giftStolen "p2" "p1" "g1", GameEvent.turnChanged "p2"] ∧
    (apply_action scenario2AfterSteal (.stealGift "p1" "g1")).2
      ≠ Except.error GameError.StealBackNotAllowed ∧
    (apply_action scenario2AfterSteal (.stealGift "p1" "g1")).1 ≠ scenario2AfterSteal ∧
    (apply_action { scenario2AfterSteal with
        history := [GameEvent.giftStolen "p1" "p2" "g1"] } (.stealGift "p1" "g1")).2
      = Except.error GameError.StealBackNotAllowed := by
  decide

/-- Claim C4 counterexample: in a fresh in-progress game, stealing the
unopened, unheld gift `g1` yields `InvalidAction`, not the `GiftUnopened`
the claim states. -/
theorem steal_unopened_counterexample :
    (demoFresh.phase = GamePhase.inProgress ∧
     demoFresh.active_player = some "p1" ∧
     demoFresh.gifts.find? (fun x => x.id == "g1") = some (demoUnopened "g1" "p1") ∧
     (demoUnopened "g1" "p1").state = GiftState.unopened ∧
     (demoUnopened "g1" "p1").held_by = none) ∧
    (apply_action demoFresh (.stealGift "p1" "g1")).2 = Except.error GameError.InvalidAction ∧
    (apply_action demoFresh (.stealGift "p1" "g1")).2 ≠ Except.error GameError.GiftUnopened := by
  decide

theorem steal_unopened_invalid_action_witness :
    (demoFresh.phase = GamePhase.inProgress ∧
     demoFresh.active_player = some "p1" ∧
     demoFresh.gifts.find? (fun x => x.id == "g1") = some (demoUnopened "g1" "p1") ∧
     (demoUnopened "g1" "p1").state = GiftState.unopened ∧
     (demoUnopened "g1" "p1").held_by = none) ∧
    apply_action demoFresh (.stealGift "p1" "g1")
      = (demoFresh, Except.error GameError.InvalidAction) :=
  ⟨by decide, @steal_unopened_invalid_action demoFresh "p1" "g1" (demoUnopened "g1" "p1")
    (by decide) (by decide) (by decide) (by decide) (by decide)⟩

theorem apply_action_error_atomic_witness :
    apply_action demoFresh (.chooseGift "p2" "g1")
      = ((apply_action demoFresh (.chooseGift "p2" "g1")).1,
         Except.error GameError.NotPlayersTurn) ∧
    (apply_action demoFresh (.chooseGift "p2" "g1")).1 = demoFresh :=
  ⟨by decide, @apply_action_error_atomic demoFresh (.chooseGift "p2" "g1")
    ((apply_action demoFresh (.chooseGift "p2" "g1")).1) GameError.NotPlayersTurn (by decide)⟩

theorem active_none_invalid_action_witness :
    (noActiveGame.phase = GamePhase.inProgress ∧ noActiveGame.active_player = none) ∧
    apply_action noActiveGame (.chooseGift "p1" "g1")
      = (noActiveGame, Except.error GameError.InvalidAction) :=
  ⟨by decide,
    (active_none_invalid_action noActiveGame (.chooseGift "p1" "g1")).1 (by decide) (by decide)⟩

/-- Claim C5 counterexample: all hypotheses of the claim hold at
`c5CounterGame`, yet the returned events are the claimed two followed by
`game_finished`, because the steal completes the game. -/
theorem steal_forces_victim_counterexample :
    (c5CounterGame.phase = GamePhase.inProgress ∧
     c5CounterGame.active_player = some "p2" ∧
     c5CounterGame.gifts.find? (fun x => x.id == "g1") = some (demoOpened "g1" "p1") ∧
     (demoOpened "g1" "p1").state = GiftState.opened ∧
     (demoOpened "g1" "p1").held_by = some "p1" ∧
     "p1" ≠ "p2" ∧
     (demoOpened "g1" "p1").stolen_count < 3 ∧
     immediate_steal_back c5CounterGame "p2" "p1" = false) ∧
    (apply_action c5CounterGame (.stealGift "p2" "g1")).2
      = Except.ok [GameEvent.giftStolen "p1" "p2" "g1", GameEvent.turnChanged "p1",
          GameEvent.gameFinished] ∧
    (apply_action c5CounterGame (.stealGift "p2" "g1")).2
      ≠ Except.ok [GameEvent.giftStolen "p1" "p2" "g1", GameEvent.turnChanged "p1"] := by
  decide

theorem steal_forces_victim_witness :
    (scenario2Game.phase = GamePhase.inProgress ∧
     scenario2Game.active_player = some "p2" ∧
     scenario2Game.gifts.find? (fun x => x.id == "g1") = some (demoOpened "g1" "p1") ∧
     (demoOpened "g1" "p1").state = GiftState.opened ∧
     (demoOpened "g1" "p1").held_by = some "p1" ∧
     "p1" ≠ "p2" ∧
     (demoOpened "g1" "p1").stolen_count < 3 ∧
     immediate_steal_back scenario2Game "p2" "p1" = false) ∧
    (∃ gifts' evs,
      gifts' = updateFirst (fun x => x.id == "g1") (stealFor "p2") scenario2Game.gifts ∧
      evs = [GameEvent.giftStolen "p1" "p2" "g1", GameEvent.turnChanged "p1"]
        ++ (if all_gifts_opened gifts'
              && all_players_holding_one scenario2Game.players gifts' then
              [GameEvent.gameFinished] else []) ∧
      apply_action scenario2Game (.stealGift "p2" "g1")
        = ({ scenario2Game with
              gifts := gifts',
              active_player := some "p1",
              phase := if all_gifts_opened gifts'
                  && all_players_holding_one scenario2Game.players gifts'
                then GamePhase.finished else scenario2Game.phase,
              history := scenario2Game.history ++ evs }, Except.ok evs) ∧
      gifts'.find? (fun x => x.id == "g1") = some (stealFor "p2" (demoOpened "g1" "p1")) ∧
      (stealFor "p2" (demoOpened "g1" "p1")).stolen_count
        = (demoOpened "g1" "p1").stolen_count + 1 ∧
      (stealFor "p2" (demoOpened "g1" "p1")).held_by = some "p2") :=
  ⟨by decide, @steal_forces_victim scenario2Game "p2" "g1" "p1" (demoOpened "g1" "p1")
    (by decide) (by decide) (by decide) (by decide) (by decide) (by decide) (by decide)
    (by decide)⟩

/-- Claim C6 counterexample: all hypotheses of the claim hold at
`c6CounterGame` (the baseline index stays in range), yet the returned events
are the claimed two followed by `game_finished`. -/
theorem choose_gift_opens_counterexample :
    (c6CounterGame.phase = GamePhase.inProgress ∧
     c6CounterGame.active_player = some "p1" ∧
     c6CounterGame.gifts.find? (fun x => x.id == "g1") = some (demoUnopened "g1" "p1") ∧
     (demoUnopened "g1" "p1").state = GiftState.unopened ∧
     c6CounterGame.current_turn + 1 < c6CounterGame.turn_order.length) ∧
    (apply_action c6CounterGame (.chooseGift "p1" "g1")).2
      = Except.ok [GameEvent.giftOpened "p1" "g1", GameEvent.turnChanged "p2",
          GameEvent.gameFinished] ∧
    (apply_action c6CounterGame (.chooseGift "p1" "g1")).2
      ≠ Except.ok [GameEvent.giftOpened "p1" "g1", GameEvent.turnChanged "p2"] := by
  decide

theorem choose_gift_opens_and_advances_witness :
    (demoFresh.phase = GamePhase.inProgress ∧
     demoFresh.active_player = some "p1" ∧
     demoFresh.gifts.find? (fun x => x.id == "g1") = some (demoUnopened "g1" "p1") ∧
     (demoUnopened "g1" "p1").state = GiftState.unopened ∧
     demoFresh.current_turn + 1 < demoFresh.turn_order.length) ∧
    (∃ gifts' evs,
      gifts' = updateFirst (fun x => x.id == "g1") (openFor "p1") demoFresh.gifts ∧
      evs = [GameEvent.giftOpened "p1" "g1",
          GameEvent.turnChanged (demoFresh.turn_order.get ⟨demoFresh.current_turn + 1,
            by decide⟩)]
        ++ (if all_gifts_opened gifts'
              && all_players_holding_one demoFresh.players gifts' then
              [GameEvent.gameFinished] else []) ∧
      apply_action demoFresh (.chooseGift "p1" "g1")
        = ({ demoFresh with
              gifts := gifts',
              current_turn := demoFresh.current_turn + 1,
              active_player := some (demoFresh.turn_order.get ⟨demoFresh.current_turn + 1,
                by decide⟩),
              phase := if all_gifts_opened gifts'
                  && all_players_holding_one demoFresh.players gifts'
                then GamePhase.finished else demoFresh.phase,
              history := demoFresh.history ++ evs }, Except.ok evs) ∧
      gifts'.find? (fun x => x.id == "g1") = some (openFor "p1" (demoUnopened "g1" "p1")) ∧
      (openFor "p1" (demoUnopened "g1" "p1")).state = GiftState.opened ∧
      (openFor "p1" (demoUnopened "g1" "p1")).opened_by = some "p1" ∧
      (openFor "p1" (demoUnopened "g1" "p1")).held_by = some "p1") :=
  ⟨by decide, @choose_gift_opens_and_advances demoFresh "p1" "g1" (demoUnopened "g1" "p1")
    (by decide) (by decide) (by decide) (by decide) (by decide)⟩

theorem completion_detection_witness :
    apply_action c6CounterGame (.chooseGift "p1" "g1")
      = (c6Post, Except.ok [GameEvent.giftOpened "p1" "g1", GameEvent.turnChanged "p2",
          GameEvent.gameFinished]) ∧
    ((c6Post.phase = GamePhase.finished ↔
        (all_gifts_opened c6Post.gifts = true ∧
         all_players_holding_one c6Post.players c6Post.gifts = true)) ∧
     (c6Post.phase = GamePhase.finished →
        [GameEvent.giftOpened "p1" "g1", GameEvent.turnChanged "p2",
          GameEvent.gameFinished].getLast? = some GameEvent.gameFinished)) :=
  ⟨by decide, @completion_detection c6CounterGame (.chooseGift "p1" "g1") c6Post
    [GameEvent.giftOpened "p1" "g1", GameEvent.turnChanged "p2", GameEvent.gameFinished]
    (by decide)⟩

theorem start_game_postconditions_witness :
    start_game demoRecord (some "tok") (fun _ => 0) = Except.ok demoStarted ∧
    (demoStarted.phase = GamePhase.inProgress ∧
     demoStarted.current_turn = 0 ∧
     demoStarted.history = [] ∧
     (∀ g ∈ demoStarted.gifts, g.state = GiftState.unopened ∧ g.opened_by = none ∧
       g.held_by = none ∧ g.stolen_count = 0) ∧
     List.Perm demoStarted.turn_order (demoRecord.players.map Player.id) ∧
     demoStarted.turn_order ≠ [] ∧
     demoStarted.active_player = demoStarted.turn_order.head?) :=
  ⟨by decide, @start_game_postconditions demoRecord (some "tok") (fun _ => 0) demoStarted
    (by decide)⟩

theorem submit_gift_upsert_witness :
    (demoRecord.phase = GamePhase.submissions ∧
     (rustTrim "https://y").isEmpty = false ∧
     (rustTrim "hint2").isEmpty = false ∧
     (demoRecord.players.any (fun p => p.id == "p1")) = true) ∧
    ((∀ g, demoRecord.gifts.find? (fun x => x.submitted_by == "p1") = some g →
      ∃ l₁ l₂ g',
        demoRecord.gifts = l₁ ++ g :: l₂ ∧
        submit_gift demoRecord "p1" "https://y" "hint2" none none "fresh-id"
          = Except.ok ({ demoRecord with gifts := l₁ ++ g' :: l₂ }, g') ∧
        g'.id = g.id ∧ g'.submitted_by = g.submitted_by ∧ g'.opened_by = g.opened_by ∧
        g'.held_by = g.held_by ∧ g'.stolen_count = g.stolen_count ∧ g'.state = g.state ∧
        g'.product_url = "https://y" ∧ g'.hint = "hint2" ∧ g'.image_url = none ∧
        g'.title = none ∧
        (l₁ ++ g' :: l₂).length = demoRecord.gifts.length) ∧
     (demoRecord.gifts.find? (fun x => x.submitted_by == "p1") = none →
      ∃ gift, submit_gift demoRecord "p1" "https://y" "hint2" none none "fresh-id"
          = Except.ok ({ demoRecord with gifts := demoRecord.gifts ++ [gift] }, gift) ∧
        gift.id = "fresh-id" ∧ gift.submitted_by = "p1" ∧ gift.state = GiftState.unopened ∧
        gift.opened_by = none ∧ gift.held_by = none ∧ gift.stolen_count = 0 ∧
        gift.product_url = "https://y" ∧ gift.hint = "hint2" ∧ gift.image_url = none ∧
        gift.title = none ∧
        (demoRecord.gifts ++ [gift]).length = demoRecord.gifts.length + 1)) :=
  ⟨by decide, @submit_gift_upsert demoRecord "p1" "https://y" "hint2" none none "fresh-id"
    (by decide) (by decide) (by decide) (by decide)⟩

end CyberElephant
